import Mathlib

/-!
Verification of the concurrent, versioned session store in
`mcp/sequentialthinking.go` (repository `UID_MCP`).

The Go code is shallowly embedded as pure Lean functions:
* machine time (`time.Now()`) is passed in explicitly as a `Nat` argument `now`;
* the Go map `map[string]*ThinkingSession` is an association list on `String`;
* fallible operations return `Except String`, carrying the `fmt.Errorf` text;
* the sequential big-step semantics of `CompareAndSwap` executes the
  transform once against the current state (in a sequential execution the
  version check at commit time always passes, so the retry loop is invisible);
  a separate small-step interleaving model (`AStep`, further below) exposes
  the read / commit / retry structure for the concurrency claims;
* the MCP response strings computed inside the handlers are not modelled
  (no claim mentions them); handlers return `Unit` on success.
-/

/-- One reasoning step, from `type Thought struct` in sequentialthinking.go.
`ParentIndex` is `*int` in Go and is never assigned anywhere in the code,
so at the value level we keep the pointee as `Option Int`. -/
structure Thought where
  Index : Nat
  Content : String
  Created : Nat
  Revised : Bool
  ParentIndex : Option Int
deriving Repr, DecidableEq

/-- From `type ThinkingSession struct` in sequentialthinking.go. -/
structure ThinkingSession where
  ID : String
  Problem : String
  Thoughts : List Thought
  CurrentThought : Nat
  EstimatedTotal : Int
  Status : String
  Created : Nat
  LastActivity : Nat
  Branches : List String
  Version : Nat
deriving Repr, DecidableEq

/-- From `func deepCopyThoughts`: each `*Thought` is replaced by a pointer to
a fresh struct holding the same field values (`t2 := *t`).  At the value
level this is the field-wise copy of every element. -/
def deepCopyThoughts (thoughts : List Thought) : List Thought :=
  thoughts.map (fun t =>
    { Index := t.Index, Content := t.Content, Created := t.Created,
      Revised := t.Revised, ParentIndex := t.ParentIndex })

/-- From `func (s *ThinkingSession) clone`: struct copy, then deep-copy of
`Thoughts` and `slices.Clone` of `Branches`. -/
def ThinkingSession.clone (s : ThinkingSession) : ThinkingSession :=
  { s with Thoughts := deepCopyThoughts s.Thoughts, Branches := s.Branches }

/-- Association-list lookup, embedding reads of the Go map `s.sessions`. -/
def findSession : List (String × ThinkingSession) → String → Option ThinkingSession
  | [], _ => none
  | kv :: rest, id => if kv.1 = id then some kv.2 else findSession rest id

/-- Association-list update/insert, embedding `s.sessions[key] = v`. -/
def putSession : List (String × ThinkingSession) → String → ThinkingSession →
    List (String × ThinkingSession)
  | [], id, v => [(id, v)]
  | kv :: rest, id, v =>
      if kv.1 = id then (id, v) :: rest else kv :: putSession rest id v

/-- From `type SessionStore struct`; the mutex only guards the map and is
invisible at this level. -/
structure SessionStore where
  sessions : List (String × ThinkingSession)
deriving Repr, DecidableEq

/-- From `func NewSessionStore`. -/
def NewSessionStore : SessionStore := ⟨[]⟩

/-- From `func (s *SessionStore) Session`. -/
def SessionStore.Session (s : SessionStore) (id : String) : Option ThinkingSession :=
  findSession s.sessions id

/-- From `func (s *SessionStore) SetSession`: keyed by `session.ID`. -/
def SessionStore.SetSession (s : SessionStore) (session : ThinkingSession) : SessionStore :=
  ⟨putSession s.sessions session.ID session⟩

/-- From `func (s *SessionStore) CompareAndSwap`, big-step sequential form.
The Go `updateFunc` communicates extra results (branch id, branch session)
through closure captures; here the transform returns them as a value of
type `α`.  On any error the store field is left untouched, exactly as the
Go method returns without writing `s.sessions`.  The committed session has
`Version = oldVersion + 1` (`updated.Version = oldVersion + 1` in Go) and is
stored under `sessionID`. -/
def SessionStore.CompareAndSwap {α : Type} (s : SessionStore) (sessionID : String)
    (updateFunc : ThinkingSession → Except String (ThinkingSession × α)) :
    SessionStore × Except String α :=
  match findSession s.sessions sessionID with
  | none => (s, Except.error ("session " ++ sessionID ++ " not found"))
  | some current =>
    match updateFunc current.clone with
    | Except.error e => (s, Except.error e)
    | Except.ok (updated, a) =>
        (⟨putSession s.sessions sessionID { updated with Version := current.Version + 1 }⟩,
         Except.ok a)

/-- From `func (s *SessionStore) SessionSnapshot`. -/
def SessionStore.SessionSnapshot (s : SessionStore) (id : String) : Option ThinkingSession :=
  (s.Session id).map ThinkingSession.clone

/-- From `func (s *SessionStore) SessionsSnapshot`. -/
def SessionStore.SessionsSnapshot (s : SessionStore) : List ThinkingSession :=
  s.sessions.map (fun kv => kv.2.clone)

/-- From `type StartThinkingArgs struct`; the absent (`omitempty`) session id
is the empty string, the absent estimate is 0, as in Go. -/
structure StartThinkingArgs where
  Problem : String
  SessionID : String
  EstimatedSteps : Int
deriving Repr, DecidableEq

/-- From `type ContinueThinkingArgs struct`. -/
structure ContinueThinkingArgs where
  SessionID : String
  Thought : String
  NextNeeded : Option Bool
  ReviseStep : Option Int
  CreateBranch : Bool
  EstimatedTotal : Int
deriving Repr, DecidableEq

/-- From `func StartThinking`: resolve the session id (a caller-supplied one,
or the generated `randText()` value, passed in here as `genID`), default the
estimate to 5, build the fresh session (Go zero values: empty thoughts,
`CurrentThought = 0`, empty branches, `Version = 0`) and `SetSession` it.
Returns the store and the resolved session id. -/
def StartThinking (store : SessionStore) (args : StartThinkingArgs)
    (genID : String) (now : Nat) : SessionStore × String :=
  let sessionID := if args.SessionID = "" then genID else args.SessionID
  let estimatedSteps := if args.EstimatedSteps = 0 then 5 else args.EstimatedSteps
  let session : ThinkingSession :=
    { ID := sessionID, Problem := args.Problem, Thoughts := [], CurrentThought := 0,
      EstimatedTotal := estimatedSteps, Status := "active", Created := now,
      LastActivity := now, Branches := [], Version := 0 }
  (store.SetSession session, sessionID)

/-- Write `f` through index `i` of `l`, embedding the in-place mutation
`session.Thoughts[stepIndex].Content = ...` (always guarded in the code by a
bounds check, so the out-of-range branch is never taken). -/
def modifyIdx {α : Type} (l : List α) (i : Nat) (f : α → α) : List α :=
  match l[i]? with
  | some a => l.set i (f a)
  | none => l

/-- The revise transform from `func ContinueThinking` (the `args.ReviseStep != nil`
branch): 0-based `stepIndex := *args.ReviseStep - 1`, bounds check, then
overwrite `Content`, set `Revised`, touch `LastActivity`. -/
def reviseUpdate (args : ContinueThinkingArgs) (k : Int) (now : Nat)
    (session : ThinkingSession) : Except String ThinkingSession :=
  let stepIndex : Int := k - 1
  if stepIndex < 0 ∨ (session.Thoughts.length : Int) ≤ stepIndex then
    Except.error ("invalid step number: " ++ toString k)
  else
    Except.ok { session with
      Thoughts := modifyIdx session.Thoughts stepIndex.toNat
        (fun t => { t with Content := args.Thought, Revised := true }),
      LastActivity := now }

/-- The append transform from `func ContinueThinking` (the "Add new thought"
branch): new index = length + 1, append the thought, advance `CurrentThought`,
touch `LastActivity`, overwrite `EstimatedTotal` when a positive estimate was
supplied, complete the session when `NextNeeded` is explicitly false. -/
def appendTransform (args : ContinueThinkingArgs) (now : Nat)
    (session : ThinkingSession) : ThinkingSession :=
  let thoughtID := session.Thoughts.length + 1
  let thought : Thought :=
    { Index := thoughtID, Content := args.Thought, Created := now,
      Revised := false, ParentIndex := none }
  let s1 := { session with
    Thoughts := session.Thoughts ++ [thought],
    CurrentThought := thoughtID, LastActivity := now }
  let s2 := if args.EstimatedTotal > 0 then { s1 with EstimatedTotal := args.EstimatedTotal } else s1
  if args.NextNeeded = some false then { s2 with Status := "completed" } else s2

/-- The branch transform from `func ContinueThinking` (the `args.CreateBranch`
branch): deterministic branch id from the current branch count, register it on
the parent, and build the child session from a deep copy of the parent's
thoughts.  The child session is the transform's auxiliary result (a closure
capture in Go) and is `SetSession`-ed after the commit. -/
def branchUpdate (args : ContinueThinkingArgs) (now : Nat)
    (session : ThinkingSession) : Except String (ThinkingSession × ThinkingSession) :=
  let branchID := args.SessionID ++ "_branch_" ++ toString (session.Branches.length + 1)
  let parent := { session with
    Branches := session.Branches ++ [branchID],
    LastActivity := now }
  let thoughtsCopy := deepCopyThoughts session.Thoughts
  let branchSession : ThinkingSession :=
    { ID := branchID, Problem := session.Problem ++ " (Alternative branch)",
      Thoughts := thoughtsCopy, CurrentThought := session.Thoughts.length,
      EstimatedTotal := session.EstimatedTotal, Status := "active",
      Created := now, LastActivity := now, Branches := [], Version := 0 }
  Except.ok (parent, branchSession)

/-- From `func ContinueThinking`: revision wins over branching (the Go code
tests `args.ReviseStep != nil` first), branching performs the parent
`CompareAndSwap` and then `SetSession` of the child, otherwise append. -/
def ContinueThinking (store : SessionStore) (args : ContinueThinkingArgs)
    (now : Nat) : SessionStore × Except String Unit :=
  match args.ReviseStep with
  | some k =>
      let r := store.CompareAndSwap args.SessionID
        (fun session => (reviseUpdate args k now session).map (fun s => (s, ())))
      (r.1, r.2)
  | none =>
    if args.CreateBranch then
      let r := store.CompareAndSwap args.SessionID (branchUpdate args now)
      match r.2 with
      | Except.error e => (r.1, Except.error e)
      | Except.ok branchSession => (r.1.SetSession branchSession, Except.ok ())
    else
      let r := store.CompareAndSwap args.SessionID
        (fun session => Except.ok (appendTransform args now session, ()))
      (r.1, r.2.map (fun _ => ()))

/-- From `func ReviewThinking`: a pure read built on `SessionSnapshot`; the
response text is not modelled, only the snapshot it is derived from.  The
store is returned unchanged, as the handler never writes it. -/
def ReviewThinking (store : SessionStore) (sessionID : String) :
    SessionStore × Except String ThinkingSession :=
  match store.SessionSnapshot sessionID with
  | none => (store, Except.error ("session " ++ sessionID ++ " not found"))
  | some snapshot => (store, Except.ok snapshot)

/-- From `func ThinkingHistory`: after URI parsing (not modelled) the handler
either lists `SessionsSnapshot` (host "sessions") or returns one
`SessionSnapshot`; JSON rendering is not modelled.  The store is never
written. -/
def ThinkingHistory (store : SessionStore) (host : String) :
    SessionStore × Except String (List ThinkingSession) :=
  if host = "sessions" then (store, Except.ok store.SessionsSnapshot)
  else
    match store.SessionSnapshot host with
    | none => (store, Except.error ("session " ++ host ++ " not found"))
    | some snapshot => (store, Except.ok [snapshot])

/-- One invocation of a public handler, with its environment inputs
(generated id, clock reading) made explicit. -/
inductive Op where
  | start (args : StartThinkingArgs) (genID : String) (now : Nat)
  | cont (args : ContinueThinkingArgs) (now : Nat)
  | review (sessionID : String)
  | history (host : String)
deriving Repr

/-- The store after one public-interface call. -/
def applyOp (store : SessionStore) : Op → SessionStore
  | Op.start args genID now => (StartThinking store args genID now).1
  | Op.cont args now => (ContinueThinking store args now).1
  | Op.review sessionID => (ReviewThinking store sessionID).1
  | Op.history host => (ThinkingHistory store host).1

/-- Stores reachable from the empty store through the public interface. -/
inductive Reachable : SessionStore → Prop
  | init : Reachable NewSessionStore
  | step {st : SessionStore} (op : Op) : Reachable st → Reachable (applyOp st op)

/-- A concrete one-thought session used by the witnesses. -/
def wThought1 : Thought :=
  { Index := 1, Content := "a", Created := 0, Revised := false, ParentIndex := none }

/-- A concrete session used by the witnesses. -/
def wSession1 : ThinkingSession :=
  { ID := "s", Problem := "P", Thoughts := [wThought1], CurrentThought := 1,
    EstimatedTotal := 5, Status := "active", Created := 0, LastActivity := 0,
    Branches := [], Version := 3 }

/-- A concrete one-session store used by the witnesses. -/
def wStore1 : SessionStore := ⟨[("s", wSession1)]⟩

/-- Concrete revise arguments (step 2) used by the witnesses. -/
def wArgsRevise2 : ContinueThinkingArgs :=
  { SessionID := "s", Thought := "b", NextNeeded := none,
    ReviseStep := some 2, CreateBranch := false, EstimatedTotal := 0 }

/-- Concrete append arguments used by the witnesses. -/
def wArgsAppend : ContinueThinkingArgs :=
  { SessionID := "s", Thought := "b", NextNeeded := none,
    ReviseStep := none, CreateBranch := false, EstimatedTotal := 0 }

/-- Concrete revise arguments (step 1) used by the witnesses. -/
def wArgsRevise1 : ContinueThinkingArgs :=
  { SessionID := "s", Thought := "c", NextNeeded := none,
    ReviseStep := some 1, CreateBranch := false, EstimatedTotal := 0 }

/-- Concrete branch arguments used by the witnesses. -/
def wArgsBranch : ContinueThinkingArgs :=
  { SessionID := "s", Thought := "x", NextNeeded := none,
    ReviseStep := none, CreateBranch := true, EstimatedTotal := 0 }

/-- Concrete start arguments (reusing id "s") used by the witnesses. -/
def wArgsStart : StartThinkingArgs :=
  { Problem := "Q", SessionID := "s", EstimatedSteps := 0 }

/-- The session value produced by appending `wArgsAppend` at time 9 to
`wSession1` (used by the C1 witness). -/
def wSession1App : ThinkingSession :=
  { ID := "s", Problem := "P",
    Thoughts := [wThought1,
      { Index := 2, Content := "b", Created := 9, Revised := false, ParentIndex := none }],
    CurrentThought := 2, EstimatedTotal := 5, Status := "active", Created := 0,
    LastActivity := 9, Branches := [], Version := 4 }

/-- The only way a public-interface operation can lower a stored session's
version: the session under `id` is replaced wholesale by a brand-new
`Version = 0` session through `SetSession` — a `StartThinking` call whose
resolved id is `id`, or a branch whose derived child id collides with `id`. -/
def IsReplacement : Op → String → Prop
  | Op.start args genID _, id =>
      (if args.SessionID = "" then genID else args.SessionID) = id
  | Op.cont args _, id =>
      args.ReviseStep = none ∧ args.CreateBranch = true ∧
      ∃ n : Nat, id = args.SessionID ++ "_branch_" ++ toString n
  | Op.review _, _ => False
  | Op.history _, _ => False

/-- Well-formedness of a stored session: thought indices are contiguous from
1 (index i at position i-1), and no thought carries a parent pointer (the Go
code never assigns `ParentIndex`). -/
def SessionWF (sess : ThinkingSession) : Prop :=
  sess.Thoughts.map Thought.Index = List.range' 1 sess.Thoughts.length ∧
  ∀ t ∈ sess.Thoughts, t.ParentIndex = none

/-- A sequence of sequential `ContinueThinking` calls (argument, clock) pairs. -/
def runAppends (st : SessionStore) (calls : List (ContinueThinkingArgs × Nat)) :
    SessionStore :=
  calls.foldl (fun acc c => (ContinueThinking acc c.1 c.2).1) st

/-- The store after starting session "s" on an empty store (witness input). -/
def wStartStore : SessionStore := applyOp NewSessionStore (Op.start wArgsStart "g" 0)

/-- The fresh session created by that start call (witness value). -/
def wFreshS : ThinkingSession :=
  { ID := "s", Problem := "Q", Thoughts := [], CurrentThought := 0,
    EstimatedTotal := 5, Status := "active", Created := 0, LastActivity := 0,
    Branches := [], Version := 0 }

/-- Phase of one in-flight append call inside `CompareAndSwap`'s retry loop:
`idle` — about to (re-)read the session under the read lock;
`pending updated v0` — holds the transformed private copy, computed from a
copy read at version `v0`, and is about to take the write lock;
`done` — committed. -/
inductive APhase where
  | idle
  | pending (updated : ThinkingSession) (v0 : Nat)
  | done

def APhase.isDone : APhase → Bool
  | APhase.done => true
  | _ => false

/-- One concurrent append call: its arguments and its current phase. -/
structure AOp where
  args : ContinueThinkingArgs
  phase : APhase

/-- Global state of the concurrency model for claim C2: the stored session
(all calls target this one session, which no step removes) and the in-flight
append calls. -/
structure CState where
  sess : ThinkingSession
  ops : List AOp

/-- Small-step interleaving semantics of N concurrent append calls running
`SessionStore.CompareAndSwap` against one session, exactly following the Go
code: a `read` step snapshots a deep copy and the current version and runs
the append transform on the copy (the clock value `now` is free); a commit
step under the write lock either succeeds when the version still matches
(storing the transformed copy with version `v0 + 1`) or sends the call back
to `idle` to retry. -/
inductive AStep : CState → CState → Prop
  | read (s : CState) (i now : Nat) (op : AOp)
      (hop : s.ops[i]? = some op) (hidle : op.phase = APhase.idle) :
      AStep s ⟨s.sess, s.ops.set i
        ⟨op.args, APhase.pending (appendTransform op.args now s.sess.clone) s.sess.Version⟩⟩
  | commitOk (s : CState) (i : Nat) (op : AOp) (u : ThinkingSession) (v0 : Nat)
      (hop : s.ops[i]? = some op) (hp : op.phase = APhase.pending u v0)
      (hv : s.sess.Version = v0) :
      AStep s ⟨{ u with Version := v0 + 1 }, s.ops.set i ⟨op.args, APhase.done⟩⟩
  | commitFail (s : CState) (i : Nat) (op : AOp) (u : ThinkingSession) (v0 : Nat)
      (hop : s.ops[i]? = some op) (hp : op.phase = APhase.pending u v0)
      (hv : s.sess.Version ≠ v0) :
      AStep s ⟨s.sess, s.ops.set i ⟨op.args, APhase.idle⟩⟩

/-- The already-committed calls. -/
def doneOps (ops : List AOp) : List AOp := ops.filter (fun o => o.phase.isDone)

/-- Inductive invariant of the append storm: with `k` commits so far the
session holds exactly `k` thoughts indexed 1..k at version `V + k`, their
contents are a permutation of the committed calls' contents, and every
pending copy was read at a version at most the current one — at the current
one exactly when it is the append transform of the current session. -/
structure AInv (V : Nat) (s : CState) : Prop where
  version_eq : s.sess.Version = V + (doneOps s.ops).length
  index_eq : s.sess.Thoughts.map Thought.Index = List.range' 1 (doneOps s.ops).length
  content_perm : List.Perm (s.sess.Thoughts.map Thought.Content)
    ((doneOps s.ops).map (fun o => o.args.Thought))
  pending_ok : ∀ op ∈ s.ops, ∀ u v0, op.phase = APhase.pending u v0 →
    v0 ≤ s.sess.Version ∧
    (v0 = s.sess.Version → ∃ now, u = appendTransform op.args now s.sess.clone)

/-- Initial state for the C2 witness: the fresh session and one idle append. -/
def wCInit : CState := ⟨wFreshS, [⟨wArgsAppend, APhase.idle⟩]⟩

/-- C2 witness state after the read step. -/
def wC1 : CState :=
  ⟨wFreshS, [⟨wArgsAppend, APhase.pending (appendTransform wArgsAppend 1 wFreshS.clone) 0⟩]⟩

/-- C2 witness state after the commit step. -/
def wC2 : CState :=
  ⟨{ appendTransform wArgsAppend 1 wFreshS.clone with Version := 1 },
   [⟨wArgsAppend, APhase.done⟩]⟩

/-- Contents of one Go `Thought` struct cell in the address-level isolation
model for claim C9.  `parentAddr` is the value of the `ParentIndex *int`
pointer field: the address of an int cell, or `none` for nil. -/
structure ThoughtCell where
  index : Nat
  content : String
  created : Nat
  revised : Bool
  parentAddr : Option Nat
deriving Repr, DecidableEq

/-- The heap of the isolation model: thought-struct cells and int cells,
addressed by position; allocation appends at the end. -/
structure Mem where
  tcells : List ThoughtCell
  icells : List Int
deriving Repr, DecidableEq

/-- The `Thoughts []*Thought` field of a stored session, as the list of
addresses of its thought cells.  The session's scalar fields and `Branches`
need no heap modelling: the struct copy in `clone` plus `slices.Clone`
duplicate them outright, so only the thought pointers — and the int cells
reachable through a thought's `ParentIndex` — can alias. -/
structure MSession where
  thoughtAddrs : List Nat
deriving Repr, DecidableEq

def fallbackCell : ThoughtCell := ⟨0, "", 0, false, none⟩

/-- `deepCopyThoughts` at the address level: `t2 := *t` allocates one fresh
cell per thought holding the same field values — in particular the same
`parentAddr` pointer value, which therefore stays shared with the original
cell.  Returns the grown memory and the fresh addresses. -/
def deepCopyThoughtsM (m : Mem) (addrs : List Nat) : Mem × List Nat :=
  (⟨m.tcells ++ addrs.map (fun a => (m.tcells[a]?).getD fallbackCell), m.icells⟩,
   List.range' m.tcells.length addrs.length)

/-- `ThinkingSession.clone` / `SessionSnapshot` at the address level. -/
def cloneM (m : Mem) (s : MSession) : Mem × MSession :=
  ((deepCopyThoughtsM m s.thoughtAddrs).1, ⟨(deepCopyThoughtsM m s.thoughtAddrs).2⟩)

/-- What a reader observes through one thought pointer: the struct cell and
the int value behind its parent pointer, if any. -/
def derefThought (m : Mem) (a : Nat) : Option (ThoughtCell × Option Int) :=
  (m.tcells[a]?).map (fun t => (t, t.parentAddr.bind (fun p => m.icells[p]?)))

/-- Everything a reader can observe of a session's thought sequence. -/
def sessionView (m : Mem) (s : MSession) : List (Option (ThoughtCell × Option Int)) :=
  s.thoughtAddrs.map (derefThought m)

/-- Witness memory for C9: one stored thought cell at address 0, no parent. -/
def wMem : Mem := ⟨[⟨1, "a", 0, false, none⟩], []⟩

/-- Witness stored session for C9: its single thought lives at address 0. -/
def wMStored : MSession := ⟨[0]⟩

/-- Witness caller mutation for C9: the snapshot cell (address 1, allocated
by the clone) has been rewritten wholesale; the stored cell is untouched. -/
def wMem2 : Mem := ⟨[⟨1, "a", 0, false, none⟩, ⟨9, "HACK", 9, true, none⟩], []⟩

-- ## END-OF-DEFINITIONS marker (new definitions are inserted above)

-- ## Basic lemmas about the embedding

/-- `deepCopyThoughts` is value-preserving (its point in Go is allocation
freshness, which the value level cannot see; the address-level model further
below does). -/
theorem deepCopyThoughts_eq (thoughts : List Thought) :
    deepCopyThoughts thoughts = thoughts := by
  unfold deepCopyThoughts
  induction thoughts with
  | nil => rfl
  | cons t ts ih => simp_all

/-- `clone` is value-preserving. -/
theorem clone_eq (s : ThinkingSession) : s.clone = s := by
  simp [ThinkingSession.clone, deepCopyThoughts_eq]

theorem findSession_put_self (l : List (String × ThinkingSession)) (id : String)
    (v : ThinkingSession) : findSession (putSession l id v) id = some v := by
  induction l with
  | nil => simp [putSession, findSession]
  | cons kv rest ih =>
      by_cases h : kv.1 = id <;> simp [putSession, findSession, h, ih]

theorem findSession_put_ne (l : List (String × ThinkingSession)) (id id' : String)
    (v : ThinkingSession) (h : id' ≠ id) :
    findSession (putSession l id v) id' = findSession l id' := by
  have hne : ¬id = id' := fun he => h he.symm
  induction l with
  | nil => simp [putSession, findSession, hne]
  | cons kv rest ih =>
      by_cases hk : kv.1 = id
      · simp [putSession, findSession, hk, hne]
      · by_cases hk' : kv.1 = id' <;> simp [putSession, findSession, hk, hk', ih, h]

theorem Session_SetSession_self (st : SessionStore) (s : ThinkingSession) :
    (st.SetSession s).Session s.ID = some s :=
  findSession_put_self _ _ _

theorem Session_SetSession_ne (st : SessionStore) (s : ThinkingSession) (id : String)
    (h : id ≠ s.ID) : (st.SetSession s).Session id = st.Session id :=
  findSession_put_ne _ _ _ _ h

theorem cas_not_found {α : Type} (st : SessionStore) (id : String)
    (f : ThinkingSession → Except String (ThinkingSession × α))
    (h : st.Session id = none) :
    st.CompareAndSwap id f = (st, Except.error ("session " ++ id ++ " not found")) := by
  have h' : findSession st.sessions id = none := h
  simp [SessionStore.CompareAndSwap, h']

theorem cas_error {α : Type} (st : SessionStore) (id : String)
    (f : ThinkingSession → Except String (ThinkingSession × α))
    (cur : ThinkingSession) (e : String)
    (hfind : st.Session id = some cur) (herr : f cur.clone = Except.error e) :
    st.CompareAndSwap id f = (st, Except.error e) := by
  have h' : findSession st.sessions id = some cur := hfind
  simp [SessionStore.CompareAndSwap, h', herr]

theorem cas_ok {α : Type} (st : SessionStore) (id : String)
    (f : ThinkingSession → Except String (ThinkingSession × α))
    (cur u : ThinkingSession) (a : α)
    (hfind : st.Session id = some cur) (hok : f cur.clone = Except.ok (u, a)) :
    st.CompareAndSwap id f =
      (⟨putSession st.sessions id { u with Version := cur.Version + 1 }⟩, Except.ok a) := by
  have h' : findSession st.sessions id = some cur := hfind
  simp [SessionStore.CompareAndSwap, h', hok]

/-- The accumulated field updates of `appendTransform`, flattened into a
single record update. -/
theorem appendTransform_eq (args : ContinueThinkingArgs) (now : Nat)
    (session : ThinkingSession) :
    appendTransform args now session =
      { session with
        Thoughts := session.Thoughts ++
          [{ Index := session.Thoughts.length + 1, Content := args.Thought,
             Created := now, Revised := false, ParentIndex := none }],
        CurrentThought := session.Thoughts.length + 1,
        LastActivity := now,
        EstimatedTotal := if args.EstimatedTotal > 0 then args.EstimatedTotal
                          else session.EstimatedTotal,
        Status := if args.NextNeeded = some false then "completed"
                  else session.Status } := by
  unfold appendTransform
  by_cases h1 : args.EstimatedTotal > 0 <;> by_cases h2 : args.NextNeeded = some false <;>
    simp [h1, h2]

/-- Claim C3: if the transform passed to `CompareAndSwap` returns an error,
the call returns exactly that error, the store (hence the stored session,
all fields, and its version) is unchanged. -/
theorem c3_transform_error_atomic {α : Type} (st : SessionStore) (id : String)
    (f : ThinkingSession → Except String (ThinkingSession × α))
    (cur : ThinkingSession) (e : String)
    (hfind : st.Session id = some cur) (herr : f cur.clone = Except.error e) :
    st.CompareAndSwap id f = (st, Except.error e) ∧
    ((st.CompareAndSwap id f).1).Session id = some cur := by
  have h := cas_error st id f cur e hfind herr
  exact ⟨h, by rw [h]; exact hfind⟩

/-- Witness for C3 at a concrete store and transform. -/
theorem c3_transform_error_atomic_witness :
    let s0 : ThinkingSession :=
      { ID := "s", Problem := "P", Thoughts := [], CurrentThought := 0,
        EstimatedTotal := 5, Status := "active", Created := 0, LastActivity := 0,
        Branches := [], Version := 0 }
    let st : SessionStore := ⟨[("s", s0)]⟩
    let f : ThinkingSession → Except String (ThinkingSession × Unit) :=
      fun _ => Except.error "boom"
    st.CompareAndSwap "s" f = (st, Except.error "boom") ∧
    ((st.CompareAndSwap "s" f).1).Session "s" = some s0 :=
  c3_transform_error_atomic _ _ _ _ _ rfl rfl

/-- Claim C4: an append call (`ContinueThinking` with no `ReviseStep`,
`CreateBranch` false) on an existing session commits exactly the thought
`{Index = length + 1, Content, Created = now, Revised = false}` at the end of
the sequence, sets `CurrentThought` to the new index, touches `LastActivity`,
overwrites `EstimatedTotal` exactly when the supplied estimate is positive,
sets `Status` to "completed" exactly when `NextNeeded = some false` (all other
fields unchanged, version + 1); and an append fails exactly when the session
does not exist. -/
theorem c4_append_spec (st : SessionStore) (args : ContinueThinkingArgs) (now : Nat)
    (cur : ThinkingSession)
    (hrev : args.ReviseStep = none) (hbr : args.CreateBranch = false)
    (hfind : st.Session args.SessionID = some cur) :
    (∃ st' : SessionStore,
      ContinueThinking st args now = (st', Except.ok ()) ∧
      st'.Session args.SessionID = some
        { cur with
          Thoughts := cur.Thoughts ++
            [{ Index := cur.Thoughts.length + 1, Content := args.Thought,
               Created := now, Revised := false, ParentIndex := none }],
          CurrentThought := cur.Thoughts.length + 1,
          LastActivity := now,
          EstimatedTotal := if args.EstimatedTotal > 0 then args.EstimatedTotal
                            else cur.EstimatedTotal,
          Status := if args.NextNeeded = some false then "completed" else cur.Status,
          Version := cur.Version + 1 } ∧
      (∀ id, id ≠ args.SessionID → st'.Session id = st.Session id)) ∧
    (∀ st2 : SessionStore, st2.Session args.SessionID = none →
      ContinueThinking st2 args now =
        (st2, Except.error ("session " ++ args.SessionID ++ " not found"))) := by
  constructor
  · have hcas := cas_ok (α := Unit) st args.SessionID
      (fun session => Except.ok (appendTransform args now session, ()))
      cur (appendTransform args now cur.clone) () hfind rfl
    refine ⟨⟨putSession st.sessions args.SessionID
      { appendTransform args now cur.clone with Version := cur.Version + 1 }⟩, ?_, ?_, ?_⟩
    · simp [ContinueThinking, hrev, hbr, hcas, Except.map]
    · show findSession _ _ = _
      rw [findSession_put_self]
      rw [clone_eq, appendTransform_eq]
    · intro id hid
      show findSession _ _ = findSession _ _
      rw [findSession_put_ne _ _ _ _ hid]
  · intro st2 hnone
    have hcas := cas_not_found (α := Unit) st2 args.SessionID
      (fun session => Except.ok (appendTransform args now session, ())) hnone
    simp [ContinueThinking, hrev, hbr, hcas, Except.map]

/-- Claim C5: on an existing session with `L` thoughts, a revise call fails —
with the "invalid step number" error, leaving the store (hence the session and
its version) exactly as it was — precisely when the 1-based step `k` is out of
range (`k < 1` or `k > L`). -/
theorem c5_revise_out_of_range (st : SessionStore) (args : ContinueThinkingArgs)
    (k : Int) (now : Nat) (cur : ThinkingSession)
    (hfind : st.Session args.SessionID = some cur)
    (hrev : args.ReviseStep = some k) :
    ContinueThinking st args now =
      (st, Except.error ("invalid step number: " ++ toString k))
    ↔ (k < 1 ∨ (cur.Thoughts.length : Int) < k) := by
  by_cases hk : k < 1 ∨ (cur.Thoughts.length : Int) < k
  · apply iff_of_true _ hk
    have hc : k - 1 < 0 ∨ (cur.Thoughts.length : Int) ≤ k - 1 := by omega
    have herr : reviseUpdate args k now cur.clone =
        Except.error ("invalid step number: " ++ toString k) := by
      simp only [reviseUpdate, clone_eq]
      rw [if_pos hc]
    have hcas := cas_error (α := Unit) st args.SessionID
      (fun session => (reviseUpdate args k now session).map (fun s => (s, ())))
      cur ("invalid step number: " ++ toString k) hfind (by simp [herr, Except.map])
    simp [ContinueThinking, hrev, hcas]
  · apply iff_of_false _ hk
    have hc : ¬(k - 1 < 0 ∨ (cur.Thoughts.length : Int) ≤ k - 1) := by omega
    have hok : reviseUpdate args k now cur.clone =
        Except.ok { cur with
          Thoughts := modifyIdx cur.Thoughts (k - 1).toNat
            (fun t => { t with Content := args.Thought, Revised := true }),
          LastActivity := now } := by
      simp only [reviseUpdate, clone_eq]
      rw [if_neg hc]
    have hcas := cas_ok (α := Unit) st args.SessionID
      (fun session => (reviseUpdate args k now session).map (fun s => (s, ())))
      cur { cur with
          Thoughts := modifyIdx cur.Thoughts (k - 1).toNat
            (fun t => { t with Content := args.Thought, Revised := true }),
          LastActivity := now } () hfind (by simp [hok, Except.map])
    simp [ContinueThinking, hrev, hcas, Prod.ext_iff]

/-- Witness for C5: revising step 2 of a one-thought session fails with the
invalid-step error and leaves the store unchanged. -/
theorem c5_revise_out_of_range_witness :
    ContinueThinking wStore1 wArgsRevise2 9 =
      (wStore1, Except.error ("invalid step number: " ++ toString (2 : Int))) :=
  (c5_revise_out_of_range wStore1 wArgsRevise2 2 9 wSession1 rfl rfl).mpr (by decide)

/-- Witness for C4 at a concrete store and append call. -/
theorem c4_append_spec_witness :
    (∃ st' : SessionStore,
      ContinueThinking wStore1 wArgsAppend 9 = (st', Except.ok ()) ∧
      st'.Session wArgsAppend.SessionID = some
        { wSession1 with
          Thoughts := wSession1.Thoughts ++
            [{ Index := wSession1.Thoughts.length + 1, Content := wArgsAppend.Thought,
               Created := 9, Revised := false, ParentIndex := none }],
          CurrentThought := wSession1.Thoughts.length + 1,
          LastActivity := 9,
          EstimatedTotal := if wArgsAppend.EstimatedTotal > 0 then wArgsAppend.EstimatedTotal
                            else wSession1.EstimatedTotal,
          Status := if wArgsAppend.NextNeeded = some false then "completed"
                    else wSession1.Status,
          Version := wSession1.Version + 1 } ∧
      (∀ id, id ≠ wArgsAppend.SessionID → st'.Session id = wStore1.Session id)) ∧
    (∀ st2 : SessionStore, st2.Session wArgsAppend.SessionID = none →
      ContinueThinking st2 wArgsAppend 9 =
        (st2, Except.error ("session " ++ wArgsAppend.SessionID ++ " not found"))) :=
  c4_append_spec wStore1 wArgsAppend 9 wSession1 rfl rfl rfl

/-- Claim C6: a successful in-range revise of step `k` rewrites exactly thought
`k` (its content, and its `Revised` flag to true; index, creation time and
parent pointer untouched), keeps every other thought and the sequence length,
keeps `Status`, `Branches`, `CurrentThought` and `EstimatedTotal`, and changes
only `LastActivity` (to the call time) and `Version` (by exactly 1). -/
theorem c6_revise_frame (st : SessionStore) (args : ContinueThinkingArgs)
    (k : Int) (now : Nat) (cur : ThinkingSession) (t : Thought)
    (hfind : st.Session args.SessionID = some cur)
    (hrev : args.ReviseStep = some k)
    (hk1 : 1 ≤ k) (hk2 : k ≤ (cur.Thoughts.length : Int))
    (ht : cur.Thoughts[(k - 1).toNat]? = some t) :
    ∃ st' : SessionStore,
      ContinueThinking st args now = (st', Except.ok ()) ∧
      st'.Session args.SessionID = some
        { cur with
          Thoughts := cur.Thoughts.set (k - 1).toNat
            { t with Content := args.Thought, Revised := true },
          LastActivity := now,
          Version := cur.Version + 1 } ∧
      (cur.Thoughts.set (k - 1).toNat
        { t with Content := args.Thought, Revised := true }).length =
        cur.Thoughts.length ∧
      (∀ id, id ≠ args.SessionID → st'.Session id = st.Session id) := by
  have hc : ¬(k - 1 < 0 ∨ (cur.Thoughts.length : Int) ≤ k - 1) := by omega
  have hmod : modifyIdx cur.Thoughts (k - 1).toNat
      (fun t' => { t' with Content := args.Thought, Revised := true }) =
      cur.Thoughts.set (k - 1).toNat { t with Content := args.Thought, Revised := true } := by
    unfold modifyIdx
    rw [ht]
  have hok : reviseUpdate args k now cur.clone =
      Except.ok { cur with
        Thoughts := cur.Thoughts.set (k - 1).toNat
          { t with Content := args.Thought, Revised := true },
        LastActivity := now } := by
    simp only [reviseUpdate, clone_eq]
    rw [if_neg hc, hmod]
  have hcas := cas_ok (α := Unit) st args.SessionID
    (fun session => (reviseUpdate args k now session).map (fun s => (s, ())))
    cur { cur with
      Thoughts := cur.Thoughts.set (k - 1).toNat
        { t with Content := args.Thought, Revised := true },
      LastActivity := now } () hfind (by simp [hok, Except.map])
  refine ⟨(st.CompareAndSwap args.SessionID
    (fun session => (reviseUpdate args k now session).map (fun s => (s, ())))).1, ?_, ?_, ?_, ?_⟩
  · simp [ContinueThinking, hrev, hcas]
  · rw [hcas]
    show findSession _ _ = _
    rw [findSession_put_self]
  · simp
  · intro id hid
    rw [hcas]
    show findSession _ _ = findSession _ _
    rw [findSession_put_ne _ _ _ _ hid]

/-- Witness for C6: revising step 1 of the one-thought session. -/
theorem c6_revise_frame_witness :
    ∃ st' : SessionStore,
      ContinueThinking wStore1 wArgsRevise1 9 = (st', Except.ok ()) ∧
      st'.Session wArgsRevise1.SessionID = some
        { wSession1 with
          Thoughts := wSession1.Thoughts.set ((1 : Int) - 1).toNat
            { wThought1 with Content := wArgsRevise1.Thought, Revised := true },
          LastActivity := 9,
          Version := wSession1.Version + 1 } ∧
      (wSession1.Thoughts.set ((1 : Int) - 1).toNat
        { wThought1 with Content := wArgsRevise1.Thought, Revised := true }).length =
        wSession1.Thoughts.length ∧
      (∀ id, id ≠ wArgsRevise1.SessionID → st'.Session id = wStore1.Session id) :=
  c6_revise_frame wStore1 wArgsRevise1 1 9 wSession1 wThought1 rfl rfl
    (by decide) (by decide) rfl

theorem branchID_ne (s r : String) : s ≠ s ++ "_branch_" ++ r := by
  intro h
  have hl := congrArg String.length h
  rw [String.length_append, String.length_append] at hl
  have h8 : ("_branch_" : String).length = 8 := rfl
  omega

/-- Claim C7: a branch call on an existing parent commits, on the parent, the
new branch id `parentId ++ "_branch_" ++ (previous branch count + 1)` appended
to `Branches` and a fresh `LastActivity` (version + 1, everything else
unchanged), and inserts under that id a sibling session whose problem is the
parent's problem annotated as an alternative, whose thoughts equal the
parent's sequence at fork time, with `CurrentThought` = that length,
`EstimatedTotal` copied, status "active", no branches, and version 0. -/
theorem c7_branch_spec (st : SessionStore) (args : ContinueThinkingArgs) (now : Nat)
    (cur : ThinkingSession)
    (hfind : st.Session args.SessionID = some cur)
    (hrev : args.ReviseStep = none) (hbr : args.CreateBranch = true) :
    ∃ st' : SessionStore,
      ContinueThinking st args now = (st', Except.ok ()) ∧
      st'.Session args.SessionID = some
        { cur with
          Branches := cur.Branches ++
            [args.SessionID ++ "_branch_" ++ toString (cur.Branches.length + 1)],
          LastActivity := now,
          Version := cur.Version + 1 } ∧
      st'.Session (args.SessionID ++ "_branch_" ++ toString (cur.Branches.length + 1)) =
        some
          { ID := args.SessionID ++ "_branch_" ++ toString (cur.Branches.length + 1),
            Problem := cur.Problem ++ " (Alternative branch)",
            Thoughts := cur.Thoughts,
            CurrentThought := cur.Thoughts.length,
            EstimatedTotal := cur.EstimatedTotal,
            Status := "active", Created := now, LastActivity := now,
            Branches := [], Version := 0 } := by
  have hupd : branchUpdate args now cur.clone =
      Except.ok
        ({ cur with
            Branches := cur.Branches ++
              [args.SessionID ++ "_branch_" ++ toString (cur.Branches.length + 1)],
            LastActivity := now },
         { ID := args.SessionID ++ "_branch_" ++ toString (cur.Branches.length + 1),
           Problem := cur.Problem ++ " (Alternative branch)",
           Thoughts := cur.Thoughts,
           CurrentThought := cur.Thoughts.length,
           EstimatedTotal := cur.EstimatedTotal,
           Status := "active", Created := now, LastActivity := now,
           Branches := [], Version := 0 }) := by
    simp only [branchUpdate, clone_eq, deepCopyThoughts_eq]
  have hcas := cas_ok (α := ThinkingSession) st args.SessionID (branchUpdate args now)
    cur _ _ hfind hupd
  refine ⟨((st.CompareAndSwap args.SessionID (branchUpdate args now)).1).SetSession
    { ID := args.SessionID ++ "_branch_" ++ toString (cur.Branches.length + 1),
      Problem := cur.Problem ++ " (Alternative branch)",
      Thoughts := cur.Thoughts,
      CurrentThought := cur.Thoughts.length,
      EstimatedTotal := cur.EstimatedTotal,
      Status := "active", Created := now, LastActivity := now,
      Branches := [], Version := 0 }, ?_, ?_, ?_⟩
  · simp [ContinueThinking, hrev, hbr, hcas]
  · rw [Session_SetSession_ne _ _ _ (branchID_ne args.SessionID _)]
    rw [hcas]
    show findSession _ _ = _
    rw [findSession_put_self]
  · exact Session_SetSession_self _ _

/-- Witness for C7: branching the concrete one-thought session. -/
theorem c7_branch_spec_witness :
    ∃ st' : SessionStore,
      ContinueThinking wStore1 wArgsBranch 9 = (st', Except.ok ()) ∧
      st'.Session wArgsBranch.SessionID = some
        { wSession1 with
          Branches := wSession1.Branches ++
            [wArgsBranch.SessionID ++ "_branch_" ++ toString (wSession1.Branches.length + 1)],
          LastActivity := 9,
          Version := wSession1.Version + 1 } ∧
      st'.Session (wArgsBranch.SessionID ++ "_branch_" ++ toString (wSession1.Branches.length + 1)) =
        some
          { ID := wArgsBranch.SessionID ++ "_branch_" ++ toString (wSession1.Branches.length + 1),
            Problem := wSession1.Problem ++ " (Alternative branch)",
            Thoughts := wSession1.Thoughts,
            CurrentThought := wSession1.Thoughts.length,
            EstimatedTotal := wSession1.EstimatedTotal,
            Status := "active", Created := 9, LastActivity := 9,
            Branches := [], Version := 0 } :=
  c7_branch_spec wStore1 wArgsBranch 9 wSession1 rfl rfl rfl

/-- Claim C10: `StartThinking` with an id already present in the store
succeeds (it has no failure path), resolves to that id, and unconditionally
replaces the stored session with a fresh one (empty thoughts, status
"active", version 0, default estimate when none supplied), discarding the
previous session entirely; other sessions are untouched. -/
theorem c10_start_overwrites (st : SessionStore) (args : StartThinkingArgs)
    (genID : String) (now : Nat) (old : ThinkingSession)
    (hid : args.SessionID ≠ "") (hfind : st.Session args.SessionID = some old) :
    (StartThinking st args genID now).2 = args.SessionID ∧
    ((StartThinking st args genID now).1).Session args.SessionID = some
      { ID := args.SessionID, Problem := args.Problem, Thoughts := [],
        CurrentThought := 0,
        EstimatedTotal := if args.EstimatedSteps = 0 then 5 else args.EstimatedSteps,
        Status := "active", Created := now, LastActivity := now,
        Branches := [], Version := 0 } ∧
    (∀ id, id ≠ args.SessionID →
      ((StartThinking st args genID now).1).Session id = st.Session id) := by
  have hif : (if args.SessionID = "" then genID else args.SessionID) = args.SessionID :=
    if_neg hid
  refine ⟨?_, ?_, ?_⟩
  · simp [StartThinking, hif]
  · simp only [StartThinking, SessionStore.SetSession, hif]
    show findSession (putSession st.sessions args.SessionID _) args.SessionID = _
    rw [findSession_put_self]
  · intro id hne
    simp only [StartThinking, SessionStore.SetSession, hif]
    show findSession (putSession st.sessions args.SessionID _) id = _
    rw [findSession_put_ne _ _ _ _ hne]
    rfl

/-- Witness for C10: restarting id "s", which is present in the store. -/
theorem c10_start_overwrites_witness :
    (StartThinking wStore1 wArgsStart "gen" 9).2 = wArgsStart.SessionID ∧
    ((StartThinking wStore1 wArgsStart "gen" 9).1).Session wArgsStart.SessionID = some
      { ID := wArgsStart.SessionID, Problem := wArgsStart.Problem, Thoughts := [],
        CurrentThought := 0,
        EstimatedTotal := if wArgsStart.EstimatedSteps = 0 then 5 else wArgsStart.EstimatedSteps,
        Status := "active", Created := 9, LastActivity := 9,
        Branches := [], Version := 0 } ∧
    (∀ id, id ≠ wArgsStart.SessionID →
      ((StartThinking wStore1 wArgsStart "gen" 9).1).Session id = wStore1.Session id) :=
  c10_start_overwrites wStore1 wArgsStart "gen" 9 wSession1 (by decide) rfl

theorem version_eq_of_some_eq {s s' : ThinkingSession} (h : some s = some s') :
    s'.Version = s.Version := by cases h; rfl

theorem ReviewThinking_fst (st : SessionStore) (id : String) :
    (ReviewThinking st id).1 = st := by
  unfold ReviewThinking
  cases st.SessionSnapshot id <;> rfl

theorem ThinkingHistory_fst (st : SessionStore) (host : String) :
    (ThinkingHistory st host).1 = st := by
  unfold ThinkingHistory
  by_cases h : host = "sessions"
  · simp [h]
  · simp only [h, if_false]
    cases st.SessionSnapshot host <;> rfl

/-- Effect of one `CompareAndSwap` call on the session stored under any id:
it is left alone, or (when it is the target and the transform succeeded) its
version grows by exactly one. -/
theorem cas_Session_version {α : Type} (st : SessionStore) (sessionID : String)
    (f : ThinkingSession → Except String (ThinkingSession × α)) (id : String)
    (s s' : ThinkingSession)
    (hs : st.Session id = some s)
    (hs' : ((st.CompareAndSwap sessionID f).1).Session id = some s') :
    s' = s ∨ s'.Version = s.Version + 1 := by
  cases hfind : st.Session sessionID with
  | none =>
      rw [cas_not_found st sessionID f hfind] at hs'
      exact Or.inl (Option.some.inj (hs.symm.trans hs')).symm
  | some cur =>
      cases hu : f cur.clone with
      | error e =>
          rw [cas_error st sessionID f cur e hfind hu] at hs'
          exact Or.inl (Option.some.inj (hs.symm.trans hs')).symm
      | ok p =>
          obtain ⟨u, b⟩ := p
          rw [cas_ok st sessionID f cur u b hfind hu] at hs'
          by_cases heq : id = sessionID
          · subst heq
            have hcur : cur = s := Option.some.inj (hfind.symm.trans hs)
            have hput : (SessionStore.mk (putSession st.sessions id
                { u with Version := cur.Version + 1 })).Session id =
                some { u with Version := cur.Version + 1 } :=
              findSession_put_self _ _ _
            have hs'' : s' = { u with Version := cur.Version + 1 } :=
              (Option.some.inj (hput.symm.trans hs')).symm
            right
            rw [hs'', ← hcur]
          · have hput : (SessionStore.mk (putSession st.sessions sessionID
                { u with Version := cur.Version + 1 })).Session id = st.Session id :=
              findSession_put_ne _ _ _ _ heq
            rw [hput] at hs'
            exact Or.inl (Option.some.inj (hs.symm.trans hs')).symm

/-- Counterexample to claim C1 as stated: across the public interface a
session's version CAN decrease — `StartThinking` with an already-used id
replaces the session and resets its version to 0.  Concretely: start "s",
append once (version 1), start "s" again (version back to 0). -/
theorem c1_counterexample :
    ((ContinueThinking (StartThinking NewSessionStore wArgsStart "g" 0).1
        wArgsAppend 1).1.Session "s").map ThinkingSession.Version = some 1 ∧
    ((StartThinking (ContinueThinking (StartThinking NewSessionStore wArgsStart "g" 0).1
        wArgsAppend 1).1 wArgsStart "g" 2).1.Session "s").map ThinkingSession.Version
      = some 0 := by
  constructor <;> rfl

/-- Claim C1 (amended): every successfully committed `CompareAndSwap`
increases the target session's version by exactly 1; and across any single
public-interface operation a stored session's version either stays equal,
increases by exactly 1, or — only when the operation replaces the session
wholesale with a fresh one (a `StartThinking` reusing its id, or a branch
child id colliding with it) — is reset to 0.  In particular it never
decreases and never skips as long as no such replacement occurs. -/
theorem c1_amended_version_step :
    (∀ (α : Type) (st : SessionStore) (id : String)
        (f : ThinkingSession → Except String (ThinkingSession × α))
        (st' : SessionStore) (a : α) (cur : ThinkingSession),
        st.Session id = some cur →
        st.CompareAndSwap id f = (st', Except.ok a) →
        ∃ u, st'.Session id = some u ∧ u.Version = cur.Version + 1) ∧
    (∀ (st : SessionStore) (op : Op) (id : String) (s s' : ThinkingSession),
        st.Session id = some s →
        (applyOp st op).Session id = some s' →
        s'.Version = s.Version ∨ s'.Version = s.Version + 1 ∨
          (s'.Version = 0 ∧ IsReplacement op id)) := by
  constructor
  · intro α st id f st' a cur hfind hcas
    cases hu : f cur.clone with
    | error e =>
        rw [cas_error st id f cur e hfind hu] at hcas
        exact absurd (congrArg Prod.snd hcas) (by simp)
    | ok p =>
        obtain ⟨u, b⟩ := p
        rw [cas_ok st id f cur u b hfind hu] at hcas
        have hst : st' = ⟨putSession st.sessions id { u with Version := cur.Version + 1 }⟩ :=
          (congrArg Prod.fst hcas).symm
        refine ⟨{ u with Version := cur.Version + 1 }, ?_, rfl⟩
        rw [hst]
        exact findSession_put_self _ _ _
  · intro st op id s s' hs hs'
    cases op with
    | start args genID now =>
        by_cases hid : (if args.SessionID = "" then genID else args.SessionID) = id
        · right; right
          have hput : ((StartThinking st args genID now).1).Session id = some
              { ID := if args.SessionID = "" then genID else args.SessionID,
                Problem := args.Problem, Thoughts := [], CurrentThought := 0,
                EstimatedTotal := if args.EstimatedSteps = 0 then 5 else args.EstimatedSteps,
                Status := "active", Created := now, LastActivity := now,
                Branches := [], Version := 0 } := by
            show findSession (putSession st.sessions _ _) id = _
            rw [← hid]
            exact findSession_put_self _ _ _
          have := Option.some.inj ((show (applyOp st (Op.start args genID now)).Session id =
            some _ from hput).symm.trans hs')
          exact ⟨by rw [← this], hid⟩
        · have hput : ((StartThinking st args genID now).1).Session id = st.Session id := by
            show findSession (putSession st.sessions _ _) id = _
            rw [findSession_put_ne _ _ _ _ (fun h => hid h.symm)]
            rfl
          have hs'' : st.Session id = some s' := by
            rw [← hput]; exact hs'
          exact Or.inl (version_eq_of_some_eq (hs.symm.trans hs''))
    | cont args now =>
        cases hrev : args.ReviseStep with
        | some k =>
            have hs'2 : ((st.CompareAndSwap args.SessionID
                (fun session => (reviseUpdate args k now session).map (fun s => (s, ())))).1).Session id
                = some s' := by
              simpa [applyOp, ContinueThinking, hrev] using hs'
            rcases cas_Session_version _ _ _ _ _ _ hs hs'2 with h | h
            · exact Or.inl (by rw [h])
            · exact Or.inr (Or.inl h)
        | none =>
            by_cases hbr : args.CreateBranch = true
            · cases hfind2 : st.Session args.SessionID with
              | none =>
                  have happ : (applyOp st (Op.cont args now)).Session id = st.Session id := by
                    simp [applyOp, ContinueThinking, hrev, hbr,
                      cas_not_found st args.SessionID (branchUpdate args now) hfind2]
                  have hs'' : st.Session id = some s' := by rw [← happ]; exact hs'
                  exact Or.inl (version_eq_of_some_eq (hs.symm.trans hs''))
              | some cur =>
                  have hupd : branchUpdate args now cur.clone =
                      Except.ok
                        ({ cur with
                            Branches := cur.Branches ++
                              [args.SessionID ++ "_branch_" ++ toString (cur.Branches.length + 1)],
                            LastActivity := now },
                         { ID := args.SessionID ++ "_branch_" ++ toString (cur.Branches.length + 1),
                           Problem := cur.Problem ++ " (Alternative branch)",
                           Thoughts := cur.Thoughts,
                           CurrentThought := cur.Thoughts.length,
                           EstimatedTotal := cur.EstimatedTotal,
                           Status := "active", Created := now, LastActivity := now,
                           Branches := [], Version := 0 }) := by
                    simp only [branchUpdate, clone_eq, deepCopyThoughts_eq]
                  have hcas := cas_ok (α := ThinkingSession) st args.SessionID
                    (branchUpdate args now) cur _ _ hfind2 hupd
                  have happ : applyOp st (Op.cont args now) =
                      ((st.CompareAndSwap args.SessionID (branchUpdate args now)).1).SetSession
                        { ID := args.SessionID ++ "_branch_" ++ toString (cur.Branches.length + 1),
                          Problem := cur.Problem ++ " (Alternative branch)",
                          Thoughts := cur.Thoughts,
                          CurrentThought := cur.Thoughts.length,
                          EstimatedTotal := cur.EstimatedTotal,
                          Status := "active", Created := now, LastActivity := now,
                          Branches := [], Version := 0 } := by
                    simp [applyOp, ContinueThinking, hrev, hbr, hcas]
                  rw [happ] at hs'
                  by_cases hid : id = args.SessionID ++ "_branch_" ++ toString (cur.Branches.length + 1)
                  · right; right
                    rw [hid] at hs'
                    rw [Session_SetSession_self] at hs'
                    refine ⟨?_, hrev, hbr, cur.Branches.length + 1, hid⟩
                    have := Option.some.inj hs'
                    rw [← this]
                  · rw [Session_SetSession_ne _ _ _ hid] at hs'
                    rcases cas_Session_version _ _ _ _ _ _ hs hs' with h | h
                    · exact Or.inl (by rw [h])
                    · exact Or.inr (Or.inl h)
            · have hs'2 : ((st.CompareAndSwap args.SessionID
                  (fun session => Except.ok (appendTransform args now session, ()))).1).Session id
                  = some s' := by
                simpa [applyOp, ContinueThinking, hrev, hbr] using hs'
              rcases cas_Session_version _ _ _ _ _ _ hs hs'2 with h | h
              · exact Or.inl (by rw [h])
              · exact Or.inr (Or.inl h)
    | review sessionID =>
        have hs'' : st.Session id = some s' := by
          rw [← ReviewThinking_fst st sessionID]; exact hs'
        exact Or.inl (version_eq_of_some_eq (hs.symm.trans hs''))
    | history host =>
        have hs'' : st.Session id = some s' := by
          rw [← ThinkingHistory_fst st host]; exact hs'
        exact Or.inl (version_eq_of_some_eq (hs.symm.trans hs''))

/-- Witness for C1 (amended), at a concrete committed append. -/
theorem c1_amended_version_step_witness :
    (∃ u, (SessionStore.mk [("s", wSession1App)]).Session "s" = some u ∧
        u.Version = wSession1.Version + 1) ∧
    (wSession1App.Version = wSession1.Version ∨
      wSession1App.Version = wSession1.Version + 1 ∨
      (wSession1App.Version = 0 ∧ IsReplacement (Op.cont wArgsAppend 9) "s")) :=
  ⟨c1_amended_version_step.1 Unit wStore1 "s"
      (fun session => Except.ok (appendTransform wArgsAppend 9 session, ()))
      ⟨[("s", wSession1App)]⟩ () wSession1 rfl rfl,
   c1_amended_version_step.2 wStore1 (Op.cont wArgsAppend 9) "s" wSession1 wSession1App
      rfl (by decide)⟩

theorem set_self_of_getElem? {α : Type} :
    ∀ (l : List α) (i : Nat) (a : α), l[i]? = some a → l.set i a = l
  | [], i, a, h => by simp at h
  | x :: xs, 0, a, h => by
      simp at h
      simp [List.set, h]
  | x :: xs, i + 1, a, h => by
      simp only [List.getElem?_cons_succ] at h
      simp [List.set, set_self_of_getElem? xs i a h]

theorem modifyIdx_length {α : Type} (l : List α) (i : Nat) (f : α → α) :
    (modifyIdx l i f).length = l.length := by
  unfold modifyIdx
  cases hl : l[i]? <;> simp

theorem map_modifyIdx {α β : Type} (l : List α) (i : Nat) (f : α → α) (g : α → β)
    (hg : ∀ a, g (f a) = g a) : (modifyIdx l i f).map g = l.map g := by
  unfold modifyIdx
  cases hl : l[i]? with
  | none => rfl
  | some a =>
      rw [List.map_set, hg]
      exact set_self_of_getElem? _ _ _ (by rw [List.getElem?_map, hl]; rfl)

theorem mem_modifyIdx {α : Type} (l : List α) (i : Nat) (f : α → α) (t : α)
    (ht : t ∈ modifyIdx l i f) : t ∈ l ∨ ∃ a ∈ l, t = f a := by
  unfold modifyIdx at ht
  cases hl : l[i]? with
  | none => rw [hl] at ht; exact Or.inl ht
  | some a =>
      rw [hl] at ht
      rcases List.mem_or_eq_of_mem_set ht with h | h
      · exact Or.inl h
      · exact Or.inr ⟨a, List.getElem?_mem hl, h⟩

theorem range1_snoc (n : Nat) : List.range' 1 (n + 1) = List.range' 1 n ++ [n + 1] := by
  rw [List.range'_concat]
  simp [Nat.add_comm]

/-- Inversion of a successful revise transform. -/
theorem reviseUpdate_ok_inv (args : ContinueThinkingArgs) (k : Int) (now : Nat)
    (session u : ThinkingSession)
    (h : reviseUpdate args k now session = Except.ok u) :
    u = { session with
      Thoughts := modifyIdx session.Thoughts (k - 1).toNat
        (fun t => { t with Content := args.Thought, Revised := true }),
      LastActivity := now } := by
  simp only [reviseUpdate] at h
  split at h
  · cases h
  · exact (Except.ok.inj h).symm

/-- Where a session found after a `CompareAndSwap` comes from: either it was
already stored (the call missed, failed, or touched another id), or it is the
committed transform of the target. -/
theorem cas_Session_cases {α : Type} (st : SessionStore) (sessionID : String)
    (f : ThinkingSession → Except String (ThinkingSession × α)) (id : String)
    (s' : ThinkingSession)
    (hs' : ((st.CompareAndSwap sessionID f).1).Session id = some s') :
    st.Session id = some s' ∨
    ∃ cur u a, st.Session sessionID = some cur ∧ f cur.clone = Except.ok (u, a) ∧
      id = sessionID ∧ s' = { u with Version := cur.Version + 1 } := by
  cases hfind : st.Session sessionID with
  | none =>
      rw [cas_not_found st sessionID f hfind] at hs'
      exact Or.inl hs'
  | some cur =>
      cases hu : f cur.clone with
      | error e =>
          rw [cas_error st sessionID f cur e hfind hu] at hs'
          exact Or.inl hs'
      | ok p =>
          obtain ⟨u, b⟩ := p
          rw [cas_ok st sessionID f cur u b hfind hu] at hs'
          by_cases heq : id = sessionID
          · right
            refine ⟨cur, u, b, rfl, hu, heq, ?_⟩
            rw [heq] at hs'
            have hput : (SessionStore.mk (putSession st.sessions sessionID
                { u with Version := cur.Version + 1 })).Session sessionID =
                some { u with Version := cur.Version + 1 } :=
              findSession_put_self _ _ _
            exact (Option.some.inj (hput.symm.trans hs')).symm
          · have hput : (SessionStore.mk (putSession st.sessions sessionID
                { u with Version := cur.Version + 1 })).Session id = st.Session id :=
              findSession_put_ne _ _ _ _ heq
            rw [hput] at hs'
            exact Or.inl hs'

/-- Where a session found after a `SetSession` comes from. -/
theorem Session_SetSession_cases (st : SessionStore) (sess : ThinkingSession)
    (id : String) (s' : ThinkingSession)
    (hs' : (st.SetSession sess).Session id = some s') :
    (id = sess.ID ∧ s' = sess) ∨ (id ≠ sess.ID ∧ st.Session id = some s') := by
  by_cases heq : id = sess.ID
  · subst heq
    rw [Session_SetSession_self] at hs'
    exact Or.inl ⟨rfl, (Option.some.inj hs').symm⟩
  · rw [Session_SetSession_ne _ _ _ heq] at hs'
    exact Or.inr ⟨heq, hs'⟩

/-- The store produced by a branch call on an existing parent. -/
theorem ContinueThinking_branch_eq (st : SessionStore) (args : ContinueThinkingArgs)
    (now : Nat) (cur : ThinkingSession)
    (hrev : args.ReviseStep = none) (hbr : args.CreateBranch = true)
    (hfind : st.Session args.SessionID = some cur) :
    (ContinueThinking st args now).1 =
      ((st.CompareAndSwap args.SessionID (branchUpdate args now)).1).SetSession
        { ID := args.SessionID ++ "_branch_" ++ toString (cur.Branches.length + 1),
          Problem := cur.Problem ++ " (Alternative branch)",
          Thoughts := cur.Thoughts,
          CurrentThought := cur.Thoughts.length,
          EstimatedTotal := cur.EstimatedTotal,
          Status := "active", Created := now, LastActivity := now,
          Branches := [], Version := 0 } := by
  have hupd : branchUpdate args now cur.clone =
      Except.ok
        ({ cur with
            Branches := cur.Branches ++
              [args.SessionID ++ "_branch_" ++ toString (cur.Branches.length + 1)],
            LastActivity := now },
         { ID := args.SessionID ++ "_branch_" ++ toString (cur.Branches.length + 1),
           Problem := cur.Problem ++ " (Alternative branch)",
           Thoughts := cur.Thoughts,
           CurrentThought := cur.Thoughts.length,
           EstimatedTotal := cur.EstimatedTotal,
           Status := "active", Created := now, LastActivity := now,
           Branches := [], Version := 0 }) := by
    simp only [branchUpdate, clone_eq, deepCopyThoughts_eq]
  have hcas := cas_ok (α := ThinkingSession) st args.SessionID
    (branchUpdate args now) cur _ _ hfind hupd
  simp [ContinueThinking, hrev, hbr, hcas]

theorem appendTransform_Thoughts (args : ContinueThinkingArgs) (now : Nat)
    (session : ThinkingSession) :
    (appendTransform args now session).Thoughts =
      session.Thoughts ++
        [{ Index := session.Thoughts.length + 1, Content := args.Thought,
           Created := now, Revised := false, ParentIndex := none }] := by
  rw [appendTransform_eq]

theorem SessionWF_append (args : ContinueThinkingArgs) (now : Nat)
    (session : ThinkingSession) (h : SessionWF session) :
    SessionWF (appendTransform args now session) := by
  obtain ⟨hidx, hpar⟩ := h
  constructor
  · rw [appendTransform_Thoughts]
    simp only [List.map_append, List.map_cons, List.map_nil, List.length_append,
      List.length_cons, List.length_nil]
    rw [hidx, ← range1_snoc]
  · intro t ht
    rw [appendTransform_Thoughts] at ht
    rcases List.mem_append.mp ht with hm | hm
    · exact hpar t hm
    · simp only [List.mem_singleton] at hm
      rw [hm]

theorem SessionWF_revise (c : String) (i : Nat) (now : Nat)
    (session : ThinkingSession) (h : SessionWF session) :
    SessionWF { session with
      Thoughts := modifyIdx session.Thoughts i
        (fun t => { t with Content := c, Revised := true }),
      LastActivity := now } := by
  obtain ⟨hidx, hpar⟩ := h
  constructor
  · show (modifyIdx session.Thoughts i _).map Thought.Index =
      List.range' 1 (modifyIdx session.Thoughts i _).length
    rw [map_modifyIdx session.Thoughts i
          (fun t => { t with Content := c, Revised := true }) Thought.Index
          (fun a => rfl),
        modifyIdx_length]
    exact hidx
  · intro t ht
    rcases mem_modifyIdx _ _ _ _ ht with hm | ⟨a, ha, hta⟩
    · exact hpar t hm
    · rw [hta]
      exact hpar a ha

theorem branchUpdate_ok_inv (args : ContinueThinkingArgs) (now : Nat)
    (session u c : ThinkingSession)
    (h : branchUpdate args now session = Except.ok (u, c)) :
    u = { session with
      Branches := session.Branches ++
        [args.SessionID ++ "_branch_" ++ toString (session.Branches.length + 1)],
      LastActivity := now } := by
  simp only [branchUpdate] at h
  exact (congrArg Prod.fst (Except.ok.inj h)).symm

/-- `SessionWF` only depends on the thought sequence. -/
theorem SessionWF_congr (s1 s2 : ThinkingSession) (h : s1.Thoughts = s2.Thoughts)
    (hw : SessionWF s1) : SessionWF s2 := by
  obtain ⟨h1, h2⟩ := hw
  constructor
  · rw [← h]
    exact h1
  · rw [← h]
    exact h2

/-- Every public-interface operation preserves well-formedness of every
stored session. -/
theorem wf_preserved (st : SessionStore) (op : Op)
    (hst : ∀ id sess, st.Session id = some sess → SessionWF sess) :
    ∀ id sess, (applyOp st op).Session id = some sess → SessionWF sess := by
  intro id sess hs'
  cases op with
  | start args genID now =>
      have hs'' : (st.SetSession
          { ID := if args.SessionID = "" then genID else args.SessionID,
            Problem := args.Problem, Thoughts := [], CurrentThought := 0,
            EstimatedTotal := if args.EstimatedSteps = 0 then 5 else args.EstimatedSteps,
            Status := "active", Created := now, LastActivity := now,
            Branches := [], Version := 0 }).Session id = some sess := hs'
      rcases Session_SetSession_cases _ _ _ _ hs'' with ⟨_, h2⟩ | ⟨_, h2⟩
      · rw [h2]
        exact ⟨rfl, by simp⟩
      · exact hst _ _ h2
  | cont args now =>
      cases hrev : args.ReviseStep with
      | some k =>
          have hs'' : ((st.CompareAndSwap args.SessionID
              (fun session => (reviseUpdate args k now session).map
                (fun s => (s, ())))).1).Session id = some sess := by
            simpa [applyOp, ContinueThinking, hrev] using hs'
          rcases cas_Session_cases _ _ _ _ _ hs'' with h | ⟨cur, u, a, hfind, hok, _, hsess⟩
          · exact hst _ _ h
          · have hu : reviseUpdate args k now cur.clone = Except.ok u := by
              cases hr : reviseUpdate args k now cur.clone with
              | error e =>
                  rw [hr] at hok
                  simp [Except.map] at hok
              | ok v =>
                  rw [hr] at hok
                  simp only [Except.map, Except.ok.injEq, Prod.mk.injEq] at hok
                  rw [hok.1]
            have hwf := hst _ _ hfind
            have hinv := reviseUpdate_ok_inv args k now cur.clone u hu
            rw [clone_eq] at hinv
            refine SessionWF_congr _ sess ?_
              (SessionWF_revise args.Thought (k - 1).toNat now cur hwf)
            rw [hsess, hinv]
      | none =>
          by_cases hbr : args.CreateBranch = true
          · cases hfind2 : st.Session args.SessionID with
            | none =>
                have happ : applyOp st (Op.cont args now) = st := by
                  simp [applyOp, ContinueThinking, hrev, hbr,
                    cas_not_found st args.SessionID (branchUpdate args now) hfind2]
                rw [happ] at hs'
                exact hst _ _ hs'
            | some cur =>
                have hwfc := hst _ _ hfind2
                have hs'' : ((
                    (st.CompareAndSwap args.SessionID (branchUpdate args now)).1).SetSession
                      { ID := args.SessionID ++ "_branch_" ++
                          toString (cur.Branches.length + 1),
                        Problem := cur.Problem ++ " (Alternative branch)",
                        Thoughts := cur.Thoughts,
                        CurrentThought := cur.Thoughts.length,
                        EstimatedTotal := cur.EstimatedTotal,
                        Status := "active", Created := now, LastActivity := now,
                        Branches := [], Version := 0 }).Session id = some sess := by
                  rw [← ContinueThinking_branch_eq st args now cur hrev hbr hfind2]
                  exact hs'
                rcases Session_SetSession_cases _ _ _ _ hs'' with ⟨_, h2⟩ | ⟨_, h2⟩
                · rw [h2]
                  exact ⟨hwfc.1, hwfc.2⟩
                · rcases cas_Session_cases _ _ _ _ _ h2 with h | ⟨cur2, u, a, hfind3, hok, _, hsess⟩
                  · exact hst _ _ h
                  · have hinv := branchUpdate_ok_inv args now cur2.clone u a hok
                    rw [clone_eq] at hinv
                    have hwf2 := hst _ _ hfind3
                    rw [hsess, hinv]
                    exact ⟨hwf2.1, hwf2.2⟩
          · have hs'' : ((st.CompareAndSwap args.SessionID
                (fun session => Except.ok (appendTransform args now session, ()))).1).Session id
                = some sess := by
              simpa [applyOp, ContinueThinking, hrev, hbr] using hs'
            rcases cas_Session_cases _ _ _ _ _ hs'' with h | ⟨cur, u, a, hfind, hok, _, hsess⟩
            · exact hst _ _ h
            · have hu : u = appendTransform args now cur := by
                have := Except.ok.inj hok
                rw [clone_eq] at this
                exact (congrArg Prod.fst this).symm
              refine SessionWF_congr (appendTransform args now cur) sess ?_
                (SessionWF_append args now cur (hst _ _ hfind))
              rw [hsess, hu]
  | review sessionID =>
      have hs'' : st.Session id = some sess := by
        rw [← ReviewThinking_fst st sessionID]
        exact hs'
      exact hst _ _ hs''
  | history host =>
      have hs'' : st.Session id = some sess := by
        rw [← ThinkingHistory_fst st host]
        exact hs'
      exact hst _ _ hs''

/-- Every session reachable through the public interface is well-formed. -/
theorem reachable_wf (st : SessionStore) (h : Reachable st) :
    ∀ id sess, st.Session id = some sess → SessionWF sess := by
  induction h with
  | init =>
      intro id sess h
      simp [NewSessionStore, SessionStore.Session, findSession] at h
  | step op hr ih => exact wf_preserved _ op ih

/-- The session stored under the target id after a successful append call. -/
theorem ContinueThinking_append_Session (st : SessionStore) (args : ContinueThinkingArgs)
    (now : Nat) (cur : ThinkingSession)
    (hrev : args.ReviseStep = none) (hbr : args.CreateBranch = false)
    (hfind : st.Session args.SessionID = some cur) :
    ((ContinueThinking st args now).1).Session args.SessionID =
      some { appendTransform args now cur with Version := cur.Version + 1 } := by
  have hcas := cas_ok (α := Unit) st args.SessionID
    (fun session => Except.ok (appendTransform args now session, ()))
    cur (appendTransform args now cur.clone) () hfind rfl
  have hfst : (ContinueThinking st args now).1 =
      SessionStore.mk (putSession st.sessions args.SessionID
        { appendTransform args now cur.clone with Version := cur.Version + 1 }) := by
    simp [ContinueThinking, hrev, hbr, hcas]
  rw [hfst, clone_eq]
  exact findSession_put_self _ _ _

/-- Sequential appends starting from a session with `L` contiguous indices
extend the index sequence to `L + number of calls`. -/
theorem runAppends_indices (calls : List (ContinueThinkingArgs × Nat)) :
    ∀ (st : SessionStore) (id : String) (s : ThinkingSession) (L : Nat),
    (∀ c ∈ calls, c.1.ReviseStep = none ∧ c.1.CreateBranch = false ∧ c.1.SessionID = id) →
    st.Session id = some s →
    s.Thoughts.length = L →
    s.Thoughts.map Thought.Index = List.range' 1 L →
    ∃ s', (runAppends st calls).Session id = some s' ∧
      s'.Thoughts.length = L + calls.length ∧
      s'.Thoughts.map Thought.Index = List.range' 1 (L + calls.length) := by
  induction calls with
  | nil =>
      intro st id s L hargs hs hlen hidx
      exact ⟨s, hs, by simpa [runAppends] using hlen, by
        simp only [runAppends, List.foldl_nil, List.length_nil, Nat.add_zero]
        exact hidx⟩
  | cons c rest ih =>
      intro st id s L hargs hs hlen hidx
      obtain ⟨hrev, hbr, hsid⟩ := hargs c (List.mem_cons_self c rest)
      have hbr' : c.1.CreateBranch = false := hbr
      have hfind : st.Session c.1.SessionID = some s := by
        rw [hsid]
        exact hs
      have hstep := ContinueThinking_append_Session st c.1 c.2 s hrev hbr' hfind
      have hrun : runAppends st (c :: rest) =
          runAppends ((ContinueThinking st c.1 c.2).1) rest := by
        simp [runAppends]
      rw [hrun]
      have hs1 : ((ContinueThinking st c.1 c.2).1).Session id =
          some { appendTransform c.1 c.2 s with Version := s.Version + 1 } := by
        rw [← hsid]
        exact hstep
      have hlen1 : ({ appendTransform c.1 c.2 s with
          Version := s.Version + 1 } : ThinkingSession).Thoughts.length = L + 1 := by
        show (appendTransform c.1 c.2 s).Thoughts.length = L + 1
        rw [appendTransform_Thoughts]
        simp [hlen]
      have hidx1 : ({ appendTransform c.1 c.2 s with
          Version := s.Version + 1 } : ThinkingSession).Thoughts.map Thought.Index =
          List.range' 1 (L + 1) := by
        show (appendTransform c.1 c.2 s).Thoughts.map Thought.Index = _
        rw [appendTransform_Thoughts]
        simp only [List.map_append, List.map_cons, List.map_nil]
        rw [hidx, hlen, range1_snoc]
      obtain ⟨s', h1, h2, h3⟩ := ih ((ContinueThinking st c.1 c.2).1) id _ (L + 1)
        (fun d hd => hargs d (List.mem_cons_of_mem c hd)) hs1 hlen1 hidx1
      refine ⟨s', h1, ?_, ?_⟩
      · rw [h2]
        simp [Nat.add_assoc, Nat.add_comm 1 rest.length]
      · rw [h3]
        congr 1
        simp [Nat.add_assoc, Nat.add_comm 1 rest.length]

/-- Claim C8: in every session reachable through the public operations,
thought indices are contiguous starting at 1 (the thought at position i-1
has index i); and N sequential append calls on a session started empty
produce exactly the indices 1..N in insertion order. -/
theorem c8_indices_contiguous :
    (∀ st : SessionStore, Reachable st → ∀ id sess, st.Session id = some sess →
      sess.Thoughts.map Thought.Index = List.range' 1 sess.Thoughts.length ∧
      ∀ (i : Nat) (h : i < sess.Thoughts.length), (sess.Thoughts.get ⟨i, h⟩).Index = i + 1) ∧
    (∀ (st : SessionStore) (id : String) (s : ThinkingSession)
        (calls : List (ContinueThinkingArgs × Nat)),
      (∀ c ∈ calls, c.1.ReviseStep = none ∧ c.1.CreateBranch = false ∧ c.1.SessionID = id) →
      st.Session id = some s → s.Thoughts = [] →
      ∃ s', (runAppends st calls).Session id = some s' ∧
        s'.Thoughts.length = calls.length ∧
        s'.Thoughts.map Thought.Index = List.range' 1 calls.length) := by
  constructor
  · intro st hreach id sess hs
    have hidx := (reachable_wf st hreach id sess hs).1
    refine ⟨hidx, ?_⟩
    intro i h
    have h2 : (sess.Thoughts.map Thought.Index)[i]? =
        (List.range' 1 sess.Thoughts.length)[i]? := by
      rw [hidx]
    rw [List.getElem?_map, List.getElem?_eq_getElem h] at h2
    have hlt2 : i < (List.range' 1 sess.Thoughts.length).length := by
      simpa using h
    rw [List.getElem?_eq_getElem hlt2] at h2
    simp only [Option.map_some', Option.some.injEq, List.getElem_range'] at h2
    have h3 : (sess.Thoughts.get ⟨i, h⟩).Index = sess.Thoughts[i].Index := rfl
    rw [h3]
    omega
  · intro st id s calls hargs hs hemp
    have h := runAppends_indices calls st id s 0 hargs hs (by rw [hemp]; rfl)
      (by rw [hemp]; rfl)
    simpa using h

/-- Witness for C8: the store after one start call is reachable and its
session is well-indexed; one sequential append on it yields index set {1}. -/
theorem c8_indices_contiguous_witness :
    (∀ sess, wStartStore.Session "s" = some sess →
      sess.Thoughts.map Thought.Index = List.range' 1 sess.Thoughts.length ∧
      ∀ (i : Nat) (h : i < sess.Thoughts.length), (sess.Thoughts.get ⟨i, h⟩).Index = i + 1) ∧
    (∃ s', (runAppends wStartStore [(wArgsAppend, 1)]).Session "s" = some s' ∧
      s'.Thoughts.length = 1 ∧
      s'.Thoughts.map Thought.Index = List.range' 1 1) := by
  constructor
  · intro sess hsess
    exact c8_indices_contiguous.1 wStartStore
      (Reachable.step (Op.start wArgsStart "g" 0) Reachable.init) "s" sess hsess
  · have h := c8_indices_contiguous.2 wStartStore "s" wFreshS [(wArgsAppend, 1)]
      (by decide) rfl rfl
    simpa using h

theorem filter_set_of_neg {α : Type} (p : α → Bool) :
    ∀ (l : List α) (i : Nat) (a b : α),
    l[i]? = some a → p a = false → p b = false →
    (l.set i b).filter p = l.filter p := by
  intro l
  induction l with
  | nil => intro i a b h _ _; simp at h
  | cons x xs ih =>
      intro i a b h hpa hpb
      cases i with
      | zero =>
          simp only [List.getElem?_cons_zero, Option.some.injEq] at h
          subst h
          simp [List.set, List.filter, hpa, hpb]
      | succ n =>
          simp only [List.getElem?_cons_succ] at h
          simp only [List.set]
          cases hx : p x <;> simp [List.filter, hx, ih n a b h hpa hpb]

theorem filter_set_perm_pos {α : Type} (p : α → Bool) :
    ∀ (l : List α) (i : Nat) (a b : α),
    l[i]? = some a → p a = false → p b = true →
    List.Perm ((l.set i b).filter p) (b :: l.filter p) := by
  intro l
  induction l with
  | nil => intro i a b h _ _; simp at h
  | cons x xs ih =>
      intro i a b h hpa hpb
      cases i with
      | zero =>
          simp only [List.getElem?_cons_zero, Option.some.injEq] at h
          subst h
          simp [List.set, List.filter, hpa, hpb]
      | succ n =>
          simp only [List.getElem?_cons_succ] at h
          simp only [List.set]
          cases hx : p x with
          | false =>
              simp only [List.filter, hx]
              exact ih n a b h hpa hpb
          | true =>
              simp only [List.filter, hx]
              exact ((ih n a b h hpa hpb).cons x).trans (List.Perm.swap b x _)

/-- A step never changes any call's arguments. -/
theorem AStep_map_args {β : Type} (g : ContinueThinkingArgs → β) (s s' : CState)
    (h : AStep s s') :
    s'.ops.map (fun o => g o.args) = s.ops.map (fun o => g o.args) := by
  cases h with
  | read i now op hop hidle =>
      show (s.ops.set i _).map _ = _
      rw [List.map_set]
      exact set_self_of_getElem? _ _ _ (by rw [List.getElem?_map, hop]; rfl)
  | commitOk i op u v0 hop hp hv =>
      show (s.ops.set i _).map _ = _
      rw [List.map_set]
      exact set_self_of_getElem? _ _ _ (by rw [List.getElem?_map, hop]; rfl)
  | commitFail i op u v0 hop hp hv =>
      show (s.ops.set i _).map _ = _
      rw [List.map_set]
      exact set_self_of_getElem? _ _ _ (by rw [List.getElem?_map, hop]; rfl)

/-- The invariant is inductive. -/
theorem AInv_step (V : Nat) (s s' : CState) (hstep : AStep s s') (hinv : AInv V s) :
    AInv V s' := by
  obtain ⟨hver, hidx, hperm, hpend⟩ := hinv
  cases hstep with
  | read i now op hop hidle =>
      have hdone : doneOps (s.ops.set i
          ⟨op.args, APhase.pending (appendTransform op.args now s.sess.clone) s.sess.Version⟩) =
          doneOps s.ops :=
        filter_set_of_neg _ s.ops i op _ hop (by rw [hidle]; rfl) rfl
      refine ⟨?_, ?_, ?_, ?_⟩
      · show s.sess.Version = _
        rw [hdone]
        exact hver
      · show s.sess.Thoughts.map Thought.Index = _
        rw [hdone]
        exact hidx
      · show List.Perm (s.sess.Thoughts.map Thought.Content) _
        rw [hdone]
        exact hperm
      · intro op' hmem u v0 hp
        rcases List.mem_or_eq_of_mem_set hmem with hm | hm
        · exact hpend op' hm u v0 hp
        · subst hm
          simp only [APhase.pending.injEq] at hp
          exact ⟨le_of_eq hp.2.symm, fun _ => ⟨now, hp.1.symm⟩⟩
  | commitOk i op u v0 hop hp hv =>
      have hnotdone : (fun o : AOp => o.phase.isDone) op = false := by
        show op.phase.isDone = false
        rw [hp]
        rfl
      have hdperm : List.Perm (doneOps (s.ops.set i ⟨op.args, APhase.done⟩))
          ((⟨op.args, APhase.done⟩ : AOp) :: doneOps s.ops) :=
        filter_set_perm_pos _ s.ops i op _ hop hnotdone rfl
      have hk : (doneOps (s.ops.set i ⟨op.args, APhase.done⟩)).length =
          (doneOps s.ops).length + 1 := by
        rw [hdperm.length_eq]
        rfl
      obtain ⟨hle, hcond⟩ := hpend op (List.getElem?_mem hop) u v0 hp
      obtain ⟨now, hu⟩ := hcond hv.symm
      rw [clone_eq] at hu
      have hlenk : s.sess.Thoughts.length = (doneOps s.ops).length := by
        have := congrArg List.length hidx
        simpa using this
      refine ⟨?_, ?_, ?_, ?_⟩
      · show v0 + 1 = _
        rw [hk, ← hv, hver]
        omega
      · show ({ u with Version := v0 + 1 } : ThinkingSession).Thoughts.map Thought.Index = _
        have : ({ u with Version := v0 + 1 } : ThinkingSession).Thoughts = u.Thoughts := rfl
        rw [this, hu, appendTransform_Thoughts, hk]
        simp only [List.map_append, List.map_cons, List.map_nil]
        rw [hidx, hlenk, range1_snoc]
      · show List.Perm (({ u with Version := v0 + 1 } : ThinkingSession).Thoughts.map
            Thought.Content) _
        have hT : ({ u with Version := v0 + 1 } : ThinkingSession).Thoughts = u.Thoughts := rfl
        rw [hT, hu, appendTransform_Thoughts]
        simp only [List.map_append, List.map_cons, List.map_nil]
        have p1 : List.Perm (s.sess.Thoughts.map Thought.Content ++ [op.args.Thought])
            (op.args.Thought :: s.sess.Thoughts.map Thought.Content) :=
          List.perm_append_singleton _ _
        have p2 := (hperm.cons op.args.Thought)
        have p3 := (hdperm.map (fun o => o.args.Thought)).symm
        exact (p1.trans p2).trans p3
      · intro op' hmem u' v0' hp'
        rcases List.mem_or_eq_of_mem_set hmem with hm | hm
        · obtain ⟨hle', _⟩ := hpend op' hm u' v0' hp'
          constructor
          · show v0' ≤ v0 + 1
            rw [← hv]
            omega
          · intro heq
            have heq2 : v0' = v0 + 1 := heq
            exfalso
            rw [hv] at hle'
            omega
        · rw [hm] at hp'
          cases hp'
  | commitFail i op u v0 hop hp hv =>
      have hdone : doneOps (s.ops.set i ⟨op.args, APhase.idle⟩) = doneOps s.ops :=
        filter_set_of_neg _ s.ops i op _ hop (by rw [hp]; rfl) rfl
      refine ⟨?_, ?_, ?_, ?_⟩
      · show s.sess.Version = _
        rw [hdone]
        exact hver
      · show s.sess.Thoughts.map Thought.Index = _
        rw [hdone]
        exact hidx
      · show List.Perm (s.sess.Thoughts.map Thought.Content) _
        rw [hdone]
        exact hperm
      · intro op' hmem u' v0' hp'
        rcases List.mem_or_eq_of_mem_set hmem with hm | hm
        · exact hpend op' hm u' v0' hp'
        · rw [hm] at hp'
          cases hp'

/-- Claim C2: firing N concurrent append calls at one session (started empty,
at any version V) such that every call eventually commits yields exactly N
thoughts, indexed exactly 1..N with no duplicate and no gap, final version
V + N, and the thought contents a permutation of the N calls' contents — no
concurrent update is lost. -/
theorem c2_concurrent_appends (init s : CState) (V : Nat)
    (hthoughts : init.sess.Thoughts = [])
    (hver : init.sess.Version = V)
    (hidle : ∀ op ∈ init.ops, op.phase = APhase.idle)
    (hreach : Relation.ReflTransGen AStep init s)
    (hdone : ∀ op ∈ s.ops, op.phase.isDone = true) :
    s.sess.Thoughts.length = init.ops.length ∧
    s.sess.Thoughts.map Thought.Index = List.range' 1 init.ops.length ∧
    s.sess.Version = V + init.ops.length ∧
    List.Perm (s.sess.Thoughts.map Thought.Content)
      (init.ops.map (fun o => o.args.Thought)) := by
  have hdinit : doneOps init.ops = [] := by
    apply List.filter_eq_nil_iff.mpr
    intro a ha
    rw [hidle a ha]
    simp [APhase.isDone]
  have hinv0 : AInv V init := by
    refine ⟨?_, ?_, ?_, ?_⟩
    · rw [hdinit, hver]
      rfl
    · rw [hdinit, hthoughts]
      rfl
    · rw [hdinit, hthoughts]
      rfl
    · intro op hmem u v0 hp
      rw [hidle op hmem] at hp
      cases hp
  have hinv : AInv V s := by
    clear hdone
    induction hreach with
    | refl => exact hinv0
    | tail hsteps hstep ih => exact AInv_step V _ _ hstep ih
  have hmap : s.ops.map (fun o => o.args.Thought) =
      init.ops.map (fun o => o.args.Thought) := by
    clear hinv hdone
    induction hreach with
    | refl => rfl
    | tail hsteps hstep ih =>
        exact (AStep_map_args ContinueThinkingArgs.Thought _ _ hstep).trans ih
  have hall : doneOps s.ops = s.ops :=
    List.filter_eq_self.mpr (fun a ha => hdone a ha)
  have hlen : s.ops.length = init.ops.length := by
    have := congrArg List.length hmap
    simpa using this
  obtain ⟨hver', hidx', hperm', _⟩ := hinv
  rw [hall, hlen] at hver' hidx'
  rw [hall, hmap] at hperm'
  refine ⟨?_, hidx', hver', hperm'⟩
  have := congrArg List.length hidx'
  simpa using this

/-- Witness for C2: a complete interleaving (read, then successful commit) of
one append call against the fresh session. -/
theorem c2_concurrent_appends_witness :
    wC2.sess.Thoughts.length = wCInit.ops.length ∧
    wC2.sess.Thoughts.map Thought.Index = List.range' 1 wCInit.ops.length ∧
    wC2.sess.Version = 0 + wCInit.ops.length ∧
    List.Perm (wC2.sess.Thoughts.map Thought.Content)
      (wCInit.ops.map (fun o => o.args.Thought)) := by
  have hstep1 : AStep wCInit wC1 :=
    AStep.read wCInit 0 1 ⟨wArgsAppend, APhase.idle⟩ rfl rfl
  have hstep2 : AStep wC1 wC2 :=
    AStep.commitOk wC1 0
      ⟨wArgsAppend, APhase.pending (appendTransform wArgsAppend 1 wFreshS.clone) 0⟩
      (appendTransform wArgsAppend 1 wFreshS.clone) 0 rfl rfl rfl
  exact c2_concurrent_appends wCInit wC2 0 rfl rfl
    (by intro op hmem; simp only [wCInit, List.mem_singleton] at hmem; rw [hmem])
    ((Relation.ReflTransGen.single hstep1).tail hstep2)
    (by intro op hmem; simp only [wC2, List.mem_singleton] at hmem; rw [hmem]; rfl)

/-- A snapshot, re-read in the memory where it was taken, shows exactly the
stored session's observable state (cell values and dereferenced parents). -/
theorem sessionView_clone (m : Mem) (stored : MSession)
    (hvalid : ∀ a ∈ stored.thoughtAddrs, a < m.tcells.length)
    (hparent : ∀ a ∈ stored.thoughtAddrs, ∀ t, m.tcells[a]? = some t →
      t.parentAddr = none) :
    sessionView (cloneM m stored).1 (cloneM m stored).2 = sessionView m stored := by
  apply List.ext_getElem?
  intro i
  show ((List.range' m.tcells.length stored.thoughtAddrs.length).map
      (derefThought (cloneM m stored).1))[i]? =
    (stored.thoughtAddrs.map (derefThought m))[i]?
  rw [List.getElem?_map, List.getElem?_map]
  cases ha : stored.thoughtAddrs[i]? with
  | none =>
      have hi : stored.thoughtAddrs.length ≤ i := by
        rcases Nat.lt_or_ge i stored.thoughtAddrs.length with h | h
        · rw [List.getElem?_eq_getElem h] at ha
          cases ha
        · exact h
      have hr : (List.range' m.tcells.length stored.thoughtAddrs.length)[i]? = none := by
        apply List.getElem?_eq_none
        simpa using hi
      rw [hr]
      rfl
  | some a =>
      have hi : i < stored.thoughtAddrs.length := by
        rcases Nat.lt_or_ge i stored.thoughtAddrs.length with h | h
        · exact h
        · rw [List.getElem?_eq_none (by simpa using h)] at ha
          cases ha
      have hmem : a ∈ stored.thoughtAddrs := List.getElem?_mem ha
      have hlt : a < m.tcells.length := hvalid a hmem
      obtain ⟨t, hT⟩ : ∃ t, m.tcells[a]? = some t := by
        rcases h2 : m.tcells[a]? with _ | t
        · rw [List.getElem?_eq_none_iff] at h2
          omega
        · exact ⟨t, rfl⟩
      have hpar := hparent a hmem t hT
      have hr : (List.range' m.tcells.length stored.thoughtAddrs.length)[i]? =
          some (m.tcells.length + i) := by
        rw [List.getElem?_eq_getElem (by simpa using hi)]
        simp
      rw [hr]
      simp only [Option.map_some']
      congr 1
      have hcell : ((cloneM m stored).1).tcells[m.tcells.length + i]? = some t := by
        show (m.tcells ++ stored.thoughtAddrs.map
          (fun a2 => (m.tcells[a2]?).getD fallbackCell))[m.tcells.length + i]? = some t
        rw [List.getElem?_append_right (by omega)]
        have hsub : m.tcells.length + i - m.tcells.length = i := by omega
        rw [hsub, List.getElem?_map, ha]
        simp [hT]
      rw [derefThought, derefThought, hcell, hT]
      simp [hpar]

/-- Claim C9: a session returned by a read operation is a fully independent
copy.  Its thought cells are freshly allocated, disjoint from the stored
session's; after any caller mutation of the snapshot — rewriting the
snapshot's own thought cells arbitrarily, and writing any int cell reachable
from the snapshot through a thought's parentIndex pointer — the stored
session's observable state is unchanged, and a subsequently fetched snapshot
of the same session still shows the original state.  The parent-pointer
hypothesis holds in every reachable store state (`reachable_wf`): the code
never assigns `ParentIndex`. -/
theorem c9_snapshot_isolated (m m2 : Mem) (stored : MSession)
    (hvalid : ∀ a ∈ stored.thoughtAddrs, a < m.tcells.length)
    (hparent : ∀ a ∈ stored.thoughtAddrs, ∀ t, m.tcells[a]? = some t →
      t.parentAddr = none)
    (htc : ∀ a, a ∉ (cloneM m stored).2.thoughtAddrs →
      m2.tcells[a]? = ((cloneM m stored).1).tcells[a]?)
    (hic : ∀ p, (∀ a ∈ (cloneM m stored).2.thoughtAddrs,
        ∀ t, ((cloneM m stored).1).tcells[a]? = some t → t.parentAddr ≠ some p) →
      m2.icells[p]? = ((cloneM m stored).1).icells[p]?) :
    (∀ a ∈ (cloneM m stored).2.thoughtAddrs, a ∉ stored.thoughtAddrs) ∧
    sessionView m2 stored = sessionView m stored ∧
    sessionView (cloneM m2 stored).1 (cloneM m2 stored).2 = sessionView m stored := by
  have hsnap : (cloneM m stored).2.thoughtAddrs =
      List.range' m.tcells.length stored.thoughtAddrs.length := rfl
  have hcellex : ∀ a ∈ stored.thoughtAddrs, ∃ t, m.tcells[a]? = some t := by
    intro a hmem
    rcases h2 : m.tcells[a]? with _ | t
    · rw [List.getElem?_eq_none_iff] at h2
      have := hvalid a hmem
      omega
    · exact ⟨t, rfl⟩
  have hsame : ∀ a ∈ stored.thoughtAddrs, m2.tcells[a]? = m.tcells[a]? := by
    intro a hmem
    have hlt := hvalid a hmem
    have hnot : a ∉ (cloneM m stored).2.thoughtAddrs := by
      rw [hsnap]
      simp only [List.mem_range'_1]
      omega
    rw [htc a hnot]
    show (m.tcells ++ _)[a]? = m.tcells[a]?
    exact List.getElem?_append_left hlt
  have hview : sessionView m2 stored = sessionView m stored := by
    apply List.map_congr_left
    intro a hmem
    obtain ⟨t, hT⟩ := hcellex a hmem
    rw [derefThought, derefThought, hsame a hmem, hT]
    simp [hparent a hmem t hT]
  refine ⟨?_, hview, ?_⟩
  · intro a hmem hmem'
    rw [hsnap] at hmem
    simp only [List.mem_range'_1] at hmem
    have := hvalid a hmem'
    omega
  · have hvalid2 : ∀ a ∈ stored.thoughtAddrs, a < m2.tcells.length := by
      intro a hmem
      obtain ⟨t, hT⟩ := hcellex a hmem
      have hT2 : m2.tcells[a]? = some t := by
        rw [hsame a hmem]
        exact hT
      obtain ⟨hb, _⟩ := List.getElem?_eq_some_iff.mp hT2
      exact hb
    have hparent2 : ∀ a ∈ stored.thoughtAddrs, ∀ t, m2.tcells[a]? = some t →
        t.parentAddr = none := by
      intro a hmem t hT2
      rw [hsame a hmem] at hT2
      exact hparent a hmem t hT2
    rw [sessionView_clone m2 stored hvalid2 hparent2]
    exact hview

/-- Witness for C9: cloning the one-thought session allocates address 1;
overwriting that snapshot cell leaves the stored view and a re-fetched
snapshot unchanged. -/
theorem c9_snapshot_isolated_witness :
    (∀ a ∈ (cloneM wMem wMStored).2.thoughtAddrs, a ∉ wMStored.thoughtAddrs) ∧
    sessionView wMem2 wMStored = sessionView wMem wMStored ∧
    sessionView (cloneM wMem2 wMStored).1 (cloneM wMem2 wMStored).2 =
      sessionView wMem wMStored := by
  apply c9_snapshot_isolated
  · decide
  · intro a ha t ht
    have ha0 : a = 0 := by simpa [wMStored] using ha
    subst ha0
    have hteq : t = ⟨1, "a", 0, false, none⟩ :=
      (Option.some.inj ((show wMem.tcells[0]? =
        some (⟨1, "a", 0, false, none⟩ : ThoughtCell) from rfl).symm.trans ht)).symm
    rw [hteq]
  · intro a ha
    cases a with
    | zero => rfl
    | succ b =>
        cases b with
        | zero => exact absurd (by decide) ha
        | succ n => simp [wMem2, cloneM, deepCopyThoughtsM, wMem, wMStored]
  · intro p hp
    simp [wMem2, cloneM, deepCopyThoughtsM, wMem, wMStored]
